import Mathlib

/-!
Shallow embedding of the Bilibili subtitle fetcher (`src/main.py` of the
BBsubtitle repository) together with proofs about its specification.

Python strings are modelled as Lean `String`s (lists of characters); the
Python `str` helpers used by the code (`strip`, `startswith`, `endswith`,
`in`, `lower`) are modelled by executable functions below.  Python floats
are modelled as exact rationals (`ℚ`).  The HTTP layer is modelled by an
explicit environment (`FetchEnv`): each network interaction is a field of
the environment, an `Except`/`Option` value standing for either the parsed
response or a raised transport exception.
-/

/-- Characters stripped by Python's `str.strip()` (ASCII whitespace). -/
def isPyWs (c : Char) : Bool :=
  c = ' ' || c = '\t' || c = '\n' || c = '\r' || c = '\x0b' || c = '\x0c'

/-- Model of Python `str.strip()` on the character list. -/
def pyStripChars (l : List Char) : List Char :=
  ((l.dropWhile isPyWs).reverse.dropWhile isPyWs).reverse

/-- Model of Python `str.strip()`. -/
def pyStrip (s : String) : String := String.mk (pyStripChars s.data)

/-- `startsList p s` is true when the list `s` begins with `p`
(model of Python `str.startswith`, list form). -/
def startsList : List Char → List Char → Bool
  | [], _ => true
  | _ :: _, [] => false
  | a :: p, b :: s => a == b && startsList p s

/-- Model of Python `str.endswith`, list form. -/
def endsList (p s : List Char) : Bool := startsList p.reverse s.reverse

/-- `subList n h` is true when `n` occurs as a contiguous substring of `h`
(model of Python's `n in h`). -/
def subList (n : List Char) : List Char → Bool
  | [] => startsList n []
  | c :: t => startsList n (c :: t) || subList n t

/-- Model of Python `s.startswith(p)`. -/
def pyStartsWith (s p : String) : Bool := startsList p.data s.data

/-- Model of Python `s.endswith(p)`. -/
def pyEndsWith (s p : String) : Bool := endsList p.data s.data

/-- Model of Python `n in h` for strings. -/
def pyContains (h n : String) : Bool := subList n.data h.data

/-- Model of Python `str.lower()` (ASCII case folding). -/
def pyLower (s : String) : String := String.mk (s.data.map Char.toLower)

/-- Model of Python `a or b` on an optional string (`None`/`""` are falsy),
with a string default. -/
def pyOrStrD (a : Option String) (d : String) : String :=
  match a with
  | some s => if s = "" then d else s
  | none => d

/-- `categorize_language` from `src/main.py`: classify a language key into
`"en"`, `"zh"` or `"other"`.  (`lan_key or ""` is the identity on strings,
so it is omitted.) -/
def categorize_language (lan_key : String) : String :=
  let l := pyLower lan_key
  if pyStartsWith l "ai-en" || l = "en" || pyStartsWith l "en-" then "en"
  else if pyStartsWith l "ai-zh" || l = "zh" || pyStartsWith l "zh-" then "zh"
  else "other"

/-- A normalized subtitle track, as produced by the enumeration endpoints:
`{"lan": ..., "url": ...}`. -/
structure SubtitleTrack where
  lan : String
  url : String
deriving DecidableEq

/-- The `buckets` dictionary of `select_by_priority`, with its three fixed
keys `"en"`, `"zh"`, `"other"`. -/
structure Buckets where
  en : List SubtitleTrack
  zh : List SubtitleTrack
  other : List SubtitleTrack

/-- One step of the bucket-filling loop of `select_by_priority`:
`buckets[categorize_language(it.get("lan", ""))].append(it)`. -/
def bucketAdd (b : Buckets) (it : SubtitleTrack) : Buckets :=
  if categorize_language it.lan = "en" then { b with en := b.en ++ [it] }
  else if categorize_language it.lan = "zh" then { b with zh := b.zh ++ [it] }
  else { b with other := b.other ++ [it] }

/-- `buckets.get(p)`: `none` models Python `None` for an unknown key. -/
def bucketsGet (b : Buckets) (p : String) : Option (List SubtitleTrack) :=
  if p = "en" then some b.en
  else if p = "zh" then some b.zh
  else if p = "other" then some b.other
  else none

/-- The priority-walking loop of `select_by_priority`:
`if buckets.get(p): return buckets[p], p` (Python truthiness: `None` and
`[]` both fall through). -/
def pickByPriority (b : Buckets) : List String → List SubtitleTrack × String
  | [] => ([], "")
  | p :: ps =>
    match bucketsGet b p with
    | some l => if l = [] then pickByPriority b ps else (l, p)
    | none => pickByPriority b ps

/-- `select_by_priority` from `src/main.py`. -/
def select_by_priority (subs : List SubtitleTrack) (priority : List String) :
    List SubtitleTrack × String :=
  pickByPriority (subs.foldl bucketAdd ⟨[], [], []⟩) priority

/-- One entry of a subtitle JSON `body`: `{"from": ..., "to": ...,
"content": ...}`.  The two times are Python floats, modelled as exact
rationals; a missing `content` key is `none`. -/
structure CaptionEntry where
  fromSec : ℚ
  toSec : ℚ
  content : Option String

/-- Python `int(t)` on a float: truncation toward zero. -/
def pyInt (q : ℚ) : ℤ := if 0 ≤ q then q.floor else q.ceil

/-- Python `round(x)` on a float: round half to even (banker's rounding),
applied to the exact rational model of the float. -/
def pyRound (q : ℚ) : ℤ :=
  let f := q.floor
  let r := q - f
  if r < 1/2 then f
  else if 1/2 < r then f + 1
  else if f % 2 = 0 then f else f + 1

/-- Left-pad the decimal rendering of a natural number with zeros to a
minimum width (Python `f"{n:0wd}"` for nonnegative `n`). -/
def padNat (w : Nat) (n : Nat) : String :=
  let s := toString n
  String.mk (List.replicate (w - s.length) '0') ++ s

/-- Python `f"{n:0wd}"` for an integer `n` (the sign precedes the zeros). -/
def pyPadInt (w : Nat) (n : ℤ) : String :=
  if n < 0 then "-" ++ padNat (w - 1) n.natAbs else padNat w n.toNat

/-- `fmt_time` from `json_subtitle_to_srt` in `src/main.py`.  Python `//`
and `%` are floor division and floor modulus, modelled by `Int.fdiv` and
`Int.fmod`. -/
def fmt_time (t : ℚ) : String :=
  let ms := pyRound ((t - (pyInt t : ℚ)) * 1000)
  let sec := (pyInt t).fmod 60
  let minutes := ((pyInt t).fdiv 60).fmod 60
  let hours := (pyInt t).fdiv 3600
  pyPadInt 2 hours ++ ":" ++ pyPadInt 2 minutes ++ ":" ++ pyPadInt 2 sec
    ++ "," ++ pyPadInt 3 ms

/-- The accumulation loop of `json_subtitle_to_srt`: builds the list of
output lines, carrying the running 1-based index. -/
def srtLines : List CaptionEntry → Nat → List String
  | [], _ => []
  | item :: rest, index =>
    let content := pyStrip (pyOrStrD item.content "")
    if content = "" then srtLines rest index
    else
      toString index
        :: (fmt_time item.fromSec ++ " --> " ++ fmt_time item.toSec)
        :: content :: "" :: srtLines rest (index + 1)

/-- `json_subtitle_to_srt` from `src/main.py`. -/
def json_subtitle_to_srt (body : List CaptionEntry) : String :=
  String.intercalate "\n" (srtLines body 1)

/-- `subtitle_json_to_plaintext` from `src/main.py`: the `parts` loop is a
`filterMap` keeping the non-blank stripped contents. -/
def subtitle_json_to_plaintext (body : List CaptionEntry) : String :=
  String.intercalate "\n" (body.filterMap fun item =>
    let content := pyStrip (pyOrStrD item.content "")
    if content = "" then none else some content)

/-- Characters matched by the regex class `[0-9A-Za-z]` (ASCII). -/
def isAlnumAscii (c : Char) : Bool := c.isAlpha || c.isDigit

/-- A match of the regex `BV[0-9A-Za-z]+` anchored at the head of the list:
`'B'`, `'V'`, then the (greedy) maximal nonempty alphanumeric run. -/
def bvAt : List Char → Option (List Char)
  | a :: b :: rest =>
    if a = 'B' ∧ b = 'V' then
      let run := rest.takeWhile isAlnumAscii
      if run = [] then none else some (a :: b :: run)
    else none
  | _ => none

/-- `re.search(r"BV[0-9A-Za-z]+", s)`: the leftmost (and there greedy)
match of the BV pattern, scanning positions left to right. -/
def firstBv : List Char → Option (List Char)
  | [] => none
  | c :: cs =>
    match bvAt (c :: cs) with
    | some r => some r
    | none => firstBv cs

/-- Characters of the regex class `[a-zA-Z0-9+.-]` (scheme characters). -/
def isSchemeChar (c : Char) : Bool := c.isAlpha || c.isDigit || c = '+' || c = '.' || c = '-'

/-- After the leading letter, the regex `[a-zA-Z0-9+.-]*://` matches iff
some run of scheme characters is followed by the literal `"://"`. -/
def schemeTail : List Char → Bool
  | ':' :: '/' :: '/' :: _ => true
  | c :: rest => isSchemeChar c && schemeTail rest
  | [] => false

/-- `re.match(r"^[a-zA-Z][a-zA-Z0-9+.-]*://", s)` viewed as a predicate:
the string begins with a URL scheme. -/
def hasScheme : List Char → Bool
  | c :: rest => c.isAlpha && schemeTail rest
  | [] => false

/-- The alternatives of the anchored domain regex in `_normalize_url`
(`^(b23\.tv|acg\.tv|bili2233\.cn|bili2233\.com|bili\.(?:tv|com))/`),
each with the trailing slash. -/
def normalizeDomainSlashes : List String :=
  ["b23.tv/", "acg.tv/", "bili2233.cn/", "bili2233.com/", "bili.tv/", "bili.com/"]

/-- `_normalize_url` from `src/main.py`: ensure a scheme for bare short
links.  The `re.IGNORECASE` domain match is modelled by lower-casing the
candidate before the anchored prefix test. -/
def normalize_url (url : String) : String :=
  let s := pyStrip url
  if hasScheme s.data then s
  else if normalizeDomainSlashes.any
      (fun d => startsList d.data (s.data.map Char.toLower)) then
    "https://" ++ s
  else s

/-- The `short_domains` tuple of `parse_input_to_bvid`. -/
def shortDomains : List String := ["b23.tv", "acg.tv", "bili2233.cn", "bili2233.com"]

/-- `parse_input_to_bvid` from `src/main.py`.  `net url` models
`requests.get(url, ..., allow_redirects=True)`: `none` is a raised network
exception (swallowed by the `try`), `some fin` a response whose final URL
is `fin` (`resp.url or url` recovers `url` when `fin` is falsy).  The
second component instruments the model: it lists the URLs fetched over the
network, in order. -/
def parse_input_to_bvid (net : String → Option String) (user_input : String) :
    String × List String :=
  match firstBv user_input.data with
  | some r => (String.mk r, [])
  | none =>
    let candidate := pyStrip user_input
    if shortDomains.any (fun d => pyContains candidate d) then
      let url := normalize_url candidate
      match net url with
      | none => (candidate, [url])
      | some fin =>
        let final := if fin = "" then url else fin
        match firstBv final.data with
        | some r => (String.mk r, [url])
        | none => (candidate, [url])
    else (candidate, [])

/-- A raw item of a `data.subtitle.subtitles` array: the four optional
string fields consulted by the normalization loops. -/
structure RawSubItem where
  url : Option String
  subtitle_url : Option String
  lan : Option String
  lang_key : Option String

/-- A parsed JSON envelope of one subtitle-list endpoint: the service
`code`, the `message`, and the located `data...subtitles` array (already
empty when any of the nested keys is missing or falsy, mirroring
`(... or {}).get(...) or []`). -/
structure RawSubResp where
  code : ℤ
  message : String
  subtitles : List RawSubItem

/-- Python `a or b` on two optional strings (`None` and `""` are falsy). -/
def pyOrStr (a b : Option String) : Option String :=
  match a with
  | some s => if s = "" then b else s
  | none => b

/-- The normalization loop shared by `get_subtitle_list_web` and
`get_subtitle_list_player_v2`: `url = it.get("url") or it.get("subtitle_url")`,
`lan = it.get("lan") or it.get("lang_key") or ""`, keep only truthy urls. -/
def normalizeItems (items : List RawSubItem) : List SubtitleTrack :=
  items.filterMap fun it =>
    let url := pyOrStr it.url it.subtitle_url
    let lan := pyOrStrD (pyOrStr it.lan it.lang_key) ""
    match url with
    | some u => if u = "" then none else some ⟨lan, u⟩
    | none => none

/-- The normalization loop of `get_subtitle_list_app_dmview_json`, whose
url fallback order is reversed: `it.get("subtitle_url") or it.get("url")`. -/
def normalizeItemsDm (items : List RawSubItem) : List SubtitleTrack :=
  items.filterMap fun it =>
    let url := pyOrStr it.subtitle_url it.url
    let lan := pyOrStrD (pyOrStr it.lan it.lang_key) ""
    match url with
    | some u => if u = "" then none else some ⟨lan, u⟩
    | none => none

/-- `get_subtitle_list_web` from `src/main.py`, applied to the modelled
HTTP response (`.error e` = transport error / `raise_for_status`).  A
service-level error (`code != 0`) raises `RuntimeError`. -/
def get_subtitle_list_web (resp : Except String RawSubResp) :
    Except String (List SubtitleTrack) :=
  match resp with
  | .error e => .error e
  | .ok r =>
    if r.code ≠ 0 then
      .error ("player api error: " ++ toString r.code ++ " " ++ r.message)
    else .ok (normalizeItems r.subtitles)

/-- `get_subtitle_list_player_v2` from `src/main.py`: transport errors
propagate, but a service-level error returns `[]`. -/
def get_subtitle_list_player_v2 (resp : Except String RawSubResp) :
    Except String (List SubtitleTrack) :=
  match resp with
  | .error e => .error e
  | .ok r => if r.code ≠ 0 then .ok [] else .ok (normalizeItems r.subtitles)

/-- `get_subtitle_list_app_dmview_json` from `src/main.py`: transport
errors propagate, a service-level error returns `[]`. -/
def get_subtitle_list_app_dmview_json (resp : Except String RawSubResp) :
    Except String (List SubtitleTrack) :=
  match resp with
  | .error e => .error e
  | .ok r => if r.code ≠ 0 then .ok [] else .ok (normalizeItemsDm r.subtitles)

/-- The three-endpoint fallback of `fetch_bilibili_subtitle_text`
(lines 247-251 of `src/main.py`):
`subs = web; if not subs: subs = player_v2; if not subs: subs = dmview`. -/
def enumerateTracks (web pv2 dm : Except String RawSubResp) :
    Except String (List SubtitleTrack) :=
  match get_subtitle_list_web web with
  | .error e => .error e
  | .ok s1 =>
    if s1 ≠ [] then .ok s1
    else
      match get_subtitle_list_player_v2 pv2 with
      | .error e => .error e
      | .ok s2 =>
        if s2 ≠ [] then .ok s2
        else get_subtitle_list_app_dmview_json dm

/-- The whitelist predicate of `fetch_bilibili_subtitle_text` (line 258):
`any(lan == w or (lan.startswith(w) and w.endswith("-")) for w in whitelist)`. -/
def whitelistMatches (whitelist : List String) (lan : String) : Bool :=
  whitelist.any fun w => lan = w || (pyStartsWith lan w && pyEndsWith w "-")

/-- The whitelist-filtering loop of `fetch_bilibili_subtitle_text`
(lines 256-259), keeping matching tracks in order. -/
def whitelistFiltered (subs : List SubtitleTrack) (whitelist : List String) :
    List SubtitleTrack :=
  subs.filter fun it => whitelistMatches whitelist it.lan

/-- Python truthiness of an optional list argument (`None` and `[]` are
falsy). -/
def truthyListOpt (o : Option (List String)) : Bool :=
  match o with
  | some (_ :: _) => true
  | _ => false

/-- `lang_priority or ["en", "zh", "other"]` (line 263): `None` and `[]`
are falsy, anything else is taken as-is. -/
def prioOf (lang_priority : Option (List String)) : List String :=
  match lang_priority with
  | some (p :: ps) => p :: ps
  | _ => ["en", "zh", "other"]

/-- The result dictionary of `fetch_bilibili_subtitle_text`:
`{"code": ..., "msg": ..., "text": ..., "lang": ...}`. -/
structure FetchResult where
  code : ℤ
  msg : String
  text : String
  lang : String
deriving DecidableEq

/-- The modelled network environment of one `fetch_bilibili_subtitle_text`
call.  `resolve` backs the short-link redirect of `parse_input_to_bvid`;
`view bvid` models `get_view_info_by_bvid` (any transport error, service
error or missing/ill-typed `aid`/`cid` raises, hence `.error`); `web`,
`pv2` and `dm` are the parsed envelopes of the three subtitle-list
endpoints; `payload url` models the fetch-and-parse of
`download_subtitle_plaintext` up to its `body` array (`.error` = raised). -/
structure FetchEnv where
  resolve : String → Option String
  view : String → Except String (ℤ × ℤ)
  web : ℤ → ℤ → Except String RawSubResp
  pv2 : ℤ → ℤ → Except String RawSubResp
  dm : ℤ → Except String RawSubResp
  payload : String → Except String (List CaptionEntry)

/-- The tail of `fetch_bilibili_subtitle_text` once a non-empty selection
exists: `pick = selected[0]; text = download_subtitle_plaintext(pick["url"])`,
then the success dictionary (`pick.get('lan') or ''` is the identity on the
stored string). -/
def fetchPick (env : FetchEnv) (pick : SubtitleTrack) : Except String FetchResult :=
  match env.payload pick.url with
  | .error e => .error e
  | .ok body => .ok ⟨0, "ok", subtitle_json_to_plaintext body, pick.lan⟩

/-- The body of the `try:` block of `fetch_bilibili_subtitle_text`
(lines 242-269 of `src/main.py`); `.error` is a raised exception. -/
def fetch_core (env : FetchEnv) (video_url : String)
    (whitelist lang_priority : Option (List String)) : Except String FetchResult :=
  let bvid := (parse_input_to_bvid env.resolve video_url).1
  match env.view bvid with
  | .error e => .error e
  | .ok (aid, cid) =>
    match enumerateTracks (env.web aid cid) (env.pv2 aid cid) (env.dm cid) with
    | .error e => .error e
    | .ok subs =>
      if subs = [] then .ok ⟨1, "未发现可用字幕（未登录或仅AI且接口不返回）", "", ""⟩
      else if truthyListOpt whitelist then
        match whitelistFiltered subs (whitelist.getD []) with
        | [] => .ok ⟨2, "按白名单过滤后无可用字幕。", "", ""⟩
        | pick :: _ => fetchPick env pick
      else
        match (select_by_priority subs (prioOf lang_priority)).1 with
        | [] => .ok ⟨3, "按优先级选择后无可用字幕。", "", ""⟩
        | pick :: _ => fetchPick env pick

/-- `fetch_bilibili_subtitle_text` from `src/main.py`: the `except` clause
turns any raised exception into the `code 99` dictionary. -/
def fetch_bilibili_subtitle_text (env : FetchEnv) (video_url : String)
    (whitelist lang_priority : Option (List String)) : FetchResult :=
  match fetch_core env video_url whitelist lang_priority with
  | .ok r => r
  | .error e => ⟨99, "处理异常: " ++ e, "", ""⟩

/-- The bucket of one category, written directly as an order-preserving
filter of the enumerated tracks (proved below to agree with the
dictionary-building loop of `select_by_priority`). -/
def categoryBucket (subs : List SubtitleTrack) (c : String) : List SubtitleTrack :=
  subs.filter fun it => categorize_language it.lan = c

/-- The entries of a subtitle body that survive SRT conversion: those whose
stripped content is non-blank. -/
def srtSurvivors (body : List CaptionEntry) : List CaptionEntry :=
  body.filter fun item => pyStrip (pyOrStrD item.content "") ≠ ""

/-- SRT blocks with explicit index assignment: the k-th surviving entry
(0-based) receives index `start + k`, so a list starting at 1 carries
exactly the indices `1..N`. -/
def numberedBlocks (start : Nat) (l : List CaptionEntry) : List String :=
  ((List.range' start l.length).zip l).flatMap fun p =>
    [toString p.1,
     fmt_time p.2.fromSec ++ " --> " ++ fmt_time p.2.toSec,
     pyStrip (pyOrStrD p.2.content ""), ""]

/-- The selection fetch_bilibili_subtitle_text computes once tracks exist:
whitelist filtering when a non-empty whitelist was passed, priority
selection otherwise. -/
def selectedTracks (whitelist lang_priority : Option (List String))
    (subs : List SubtitleTrack) : List SubtitleTrack :=
  if truthyListOpt whitelist then whitelistFiltered subs (whitelist.getD [])
  else (select_by_priority subs (prioOf lang_priority)).1

/-- Fixture: an environment whose three subtitle-list endpoints all answer
with a service code 0 and an empty track list. -/
def envEmpty : FetchEnv :=
  ⟨fun _ => none, fun _ => .ok (1, 2),
   fun _ _ => .ok ⟨0, "", []⟩, fun _ _ => .ok ⟨0, "", []⟩,
   fun _ => .ok ⟨0, "", []⟩, fun _ => .ok []⟩

/-- Fixture: one zh-CN track followed by one en-US track. -/
def rawTwoTracks : RawSubResp :=
  ⟨0, "", [⟨some "u-zh", none, some "zh-CN", none⟩,
           ⟨some "u-en", none, some "en-US", none⟩]⟩

/-- Fixture: an environment whose web endpoint lists `rawTwoTracks` and
whose payload endpoint returns a one-entry body naming the fetched URL. -/
def envTwoTracks : FetchEnv :=
  { envEmpty with
    web := fun _ _ => .ok rawTwoTracks
    payload := fun u => .ok [⟨0, 1, some ("text of " ++ u)⟩] }

/-! ## Helper lemmas about the string primitives -/

theorem startsList_iff (p : List Char) : ∀ s, startsList p s = true ↔ ∃ r, s = p ++ r := by
  induction p with
  | nil => intro s; simp [startsList]
  | cons a p ih =>
    intro s
    cases s with
    | nil => simp [startsList]
    | cons b s' =>
      simp only [startsList, Bool.and_eq_true, beq_iff_eq, ih, List.cons_append]
      constructor
      · rintro ⟨rfl, r, rfl⟩; exact ⟨r, rfl⟩
      · rintro ⟨r, hr⟩
        injection hr with h1 h2
        exact ⟨h1.symm, r, h2⟩

theorem startsList_self_append (p m : List Char) : startsList p (p ++ m) = true :=
  (startsList_iff p _).mpr ⟨m, rfl⟩

theorem startsList_of_append_left {p q s : List Char}
    (h : startsList (p ++ q) s = true) : startsList p s = true := by
  rw [startsList_iff] at h ⊢
  obtain ⟨r, rfl⟩ := h
  exact ⟨q ++ r, by simp⟩

theorem subList_of_startsList {n h : List Char} (hs : startsList n h = true) :
    subList n h = true := by
  cases h with
  | nil => simpa [subList] using hs
  | cons c t => simp [subList, hs]

theorem startsList_map (f : Char → Char) {p s : List Char}
    (h : startsList p s = true) : startsList (p.map f) (s.map f) = true := by
  rw [startsList_iff] at h ⊢
  obtain ⟨r, rfl⟩ := h
  exact ⟨r.map f, by simp⟩

theorem startsList_agree {p q l : List Char} (hp : startsList p l = true)
    (hq : startsList q l = true) (hlen : q.length ≤ p.length) :
    startsList q p = true := by
  rw [startsList_iff] at hp hq ⊢
  obtain ⟨r, rfl⟩ := hp
  obtain ⟨r', hr'⟩ := hq
  refine ⟨p.drop q.length, ?_⟩
  have h1 : (q ++ r').take q.length = q := by
    rw [List.take_append_of_le_length le_rfl, List.take_length]
  have h2 : (p ++ r).take q.length = p.take q.length :=
    List.take_append_of_le_length hlen
  have h3 : q = p.take q.length := by
    have hc := congrArg (List.take q.length) hr'
    rw [h1, h2] at hc
    exact hc.symm
  have h4 : p.take q.length ++ p.drop q.length = p := List.take_append_drop ..
  rw [← h3] at h4
  exact h4.symm

theorem dropWhile_head_false (p : Char → Bool) :
    ∀ (l : List Char) c cs, l.dropWhile p = c :: cs → p c = false := by
  intro l
  induction l with
  | nil => intro c cs h; simp [List.dropWhile] at h
  | cons a t ih =>
    intro c cs h
    rw [List.dropWhile_cons] at h
    by_cases hpa : p a = true
    · rw [if_pos hpa] at h; exact ih c cs h
    · rw [if_neg hpa] at h
      injection h with h1 _
      subst h1
      exact Bool.not_eq_true _ |>.mp hpa

theorem dropWhile_eq_self (p : Char → Bool) (l : List Char)
    (h : ∀ c cs, l = c :: cs → p c = false) : l.dropWhile p = l := by
  cases l with
  | nil => rfl
  | cons a t => rw [List.dropWhile_cons, if_neg]; simp [h a t rfl]

theorem pyStripChars_idem (l : List Char) : pyStripChars (pyStripChars l) = pyStripChars l := by
  unfold pyStripChars
  have hstep1 :
      ((((l.dropWhile isPyWs).reverse.dropWhile isPyWs).reverse).dropWhile isPyWs)
        = ((l.dropWhile isPyWs).reverse.dropWhile isPyWs).reverse := by
    apply dropWhile_eq_self
    intro c cs hc
    have hsplit :
        (l.dropWhile isPyWs).reverse.takeWhile isPyWs ++
          ((l.dropWhile isPyWs).reverse.dropWhile isPyWs) = (l.dropWhile isPyWs).reverse :=
      List.takeWhile_append_dropWhile ..
    have hm : l.dropWhile isPyWs =
        ((l.dropWhile isPyWs).reverse.dropWhile isPyWs).reverse ++
          ((l.dropWhile isPyWs).reverse.takeWhile isPyWs).reverse := by
      conv_lhs => rw [← List.reverse_reverse (l.dropWhile isPyWs), ← hsplit]
      rw [List.reverse_append]
    rw [hc] at hm
    exact dropWhile_head_false isPyWs l c _ hm
  rw [hstep1, List.reverse_reverse]
  have hstep2 : ((l.dropWhile isPyWs).reverse.dropWhile isPyWs).dropWhile isPyWs
      = (l.dropWhile isPyWs).reverse.dropWhile isPyWs := by
    apply dropWhile_eq_self
    intro c cs hc
    exact dropWhile_head_false isPyWs (l.dropWhile isPyWs).reverse c cs hc
  rw [hstep2]

theorem pyStrip_idem (s : String) : pyStrip (pyStrip s) = pyStrip s := by
  show String.mk (pyStripChars (String.mk (pyStripChars s.data)).data) = _
  rw [show (String.mk (pyStripChars s.data)).data = pyStripChars s.data from rfl,
    pyStripChars_idem]
  rfl

/-! ## Language categorization (C4) -/

theorem categorize_cases (s : String) :
    categorize_language s = "en" ∨ categorize_language s = "zh" ∨
      categorize_language s = "other" := by
  simp only [categorize_language]
  split_ifs
  · exact Or.inl rfl
  · exact Or.inr (Or.inl rfl)
  · exact Or.inr (Or.inr rfl)

theorem en_zh_conditions_disjoint (l : String)
    (he : pyStartsWith l "ai-en" = true ∨ l = "en" ∨ pyStartsWith l "en-" = true)
    (hz : pyStartsWith l "ai-zh" = true ∨ l = "zh" ∨ pyStartsWith l "zh-" = true) :
    False := by
  unfold pyStartsWith at he hz
  rcases he with he | he | he <;> rcases hz with hz | hz | hz
  · exact absurd (startsList_agree he hz (by decide)) (by decide)
  · subst hz; exact absurd he (by decide)
  · exact absurd (startsList_agree he hz (by decide)) (by decide)
  · subst he; exact absurd hz (by decide)
  · subst he; exact absurd hz (by decide)
  · subst he; exact absurd hz (by decide)
  · exact absurd (startsList_agree hz he (by decide)) (by decide)
  · subst hz; exact absurd he (by decide)
  · exact absurd (startsList_agree he hz (by decide)) (by decide)


theorem orChain_eq_true_iff (x y : Bool) (p : Prop) [Decidable p] :
    (x || decide p || y) = true ↔ (x = true ∨ p ∨ y = true) := by
  cases x <;> by_cases hp : p <;> simp [hp]

theorem categorize_eq_en_iff (s : String) :
    categorize_language s = "en" ↔
      (pyStartsWith (pyLower s) "ai-en" = true ∨ pyLower s = "en" ∨
        pyStartsWith (pyLower s) "en-" = true) := by
  simp only [categorize_language]
  by_cases h1 : (pyStartsWith (pyLower s) "ai-en" || decide (pyLower s = "en") ||
      pyStartsWith (pyLower s) "en-") = true
  · rw [if_pos h1]
    exact iff_of_true rfl ((orChain_eq_true_iff ..).mp h1)
  · rw [if_neg h1]
    have hno := fun hc => h1 ((orChain_eq_true_iff ..).mpr hc)
    split_ifs with h2
    · exact iff_of_false (by decide) hno
    · exact iff_of_false (by decide) hno

theorem categorize_eq_zh_iff (s : String) :
    categorize_language s = "zh" ↔
      (pyStartsWith (pyLower s) "ai-zh" = true ∨ pyLower s = "zh" ∨
        pyStartsWith (pyLower s) "zh-" = true) := by
  simp only [categorize_language]
  by_cases h1 : (pyStartsWith (pyLower s) "ai-en" || decide (pyLower s = "en") ||
      pyStartsWith (pyLower s) "en-") = true
  · rw [if_pos h1]
    refine iff_of_false (by decide) fun hz => ?_
    exact en_zh_conditions_disjoint (pyLower s) ((orChain_eq_true_iff ..).mp h1) hz
  · rw [if_neg h1]
    by_cases h2 : (pyStartsWith (pyLower s) "ai-zh" || decide (pyLower s = "zh") ||
        pyStartsWith (pyLower s) "zh-") = true
    · rw [if_pos h2]
      exact iff_of_true rfl ((orChain_eq_true_iff ..).mp h2)
    · rw [if_neg h2]
      exact iff_of_false (by decide) fun hc => h2 ((orChain_eq_true_iff ..).mpr hc)

theorem categorize_eq_other_iff (s : String) :
    categorize_language s = "other" ↔
      (¬(pyStartsWith (pyLower s) "ai-en" = true ∨ pyLower s = "en" ∨
          pyStartsWith (pyLower s) "en-" = true) ∧
       ¬(pyStartsWith (pyLower s) "ai-zh" = true ∨ pyLower s = "zh" ∨
          pyStartsWith (pyLower s) "zh-" = true)) := by
  simp only [categorize_language]
  by_cases h1 : (pyStartsWith (pyLower s) "ai-en" || decide (pyLower s = "en") ||
      pyStartsWith (pyLower s) "en-") = true
  · rw [if_pos h1]
    exact iff_of_false (by decide) fun hc => hc.1 ((orChain_eq_true_iff ..).mp h1)
  · rw [if_neg h1]
    by_cases h2 : (pyStartsWith (pyLower s) "ai-zh" || decide (pyLower s = "zh") ||
        pyStartsWith (pyLower s) "zh-") = true
    · rw [if_pos h2]
      exact iff_of_false (by decide) fun hc => hc.2 ((orChain_eq_true_iff ..).mp h2)
    · rw [if_neg h2]
      refine iff_of_true rfl ⟨fun hc => h1 ((orChain_eq_true_iff ..).mpr hc),
        fun hc => h2 ((orChain_eq_true_iff ..).mpr hc)⟩

/-- C4: language categorization is total — every language-code string maps
to exactly one of "en", "zh", "other" — and is governed by the
case-insensitive rules: equal to or prefixed with the AI marker of the
category, or equal to the bare code, or prefixed with the code followed by
the separator. -/
theorem categorize_language_total_and_rules (s : String) :
    (categorize_language s = "en" ∨ categorize_language s = "zh" ∨
      categorize_language s = "other") ∧
    (categorize_language s = "en" ↔
      (pyStartsWith (pyLower s) "ai-en" = true ∨ pyLower s = "en" ∨
        pyStartsWith (pyLower s) "en-" = true)) ∧
    (categorize_language s = "zh" ↔
      (pyStartsWith (pyLower s) "ai-zh" = true ∨ pyLower s = "zh" ∨
        pyStartsWith (pyLower s) "zh-" = true)) ∧
    (categorize_language s = "other" ↔
      (¬(pyStartsWith (pyLower s) "ai-en" = true ∨ pyLower s = "en" ∨
          pyStartsWith (pyLower s) "en-" = true) ∧
       ¬(pyStartsWith (pyLower s) "ai-zh" = true ∨ pyLower s = "zh" ∨
          pyStartsWith (pyLower s) "zh-" = true))) :=
  ⟨categorize_cases s, categorize_eq_en_iff s, categorize_eq_zh_iff s,
    categorize_eq_other_iff s⟩

/-- Witness for C4 at a concrete mixed-case AI code. -/
theorem categorize_language_total_and_rules_witness :
    categorize_language "AI-EN-US" = "en" :=
  (categorize_language_total_and_rules "AI-EN-US").2.1.mpr (Or.inl (by decide))

/-! ## SRT conversion (C6) -/

theorem srtLines_eq_numberedBlocks (body : List CaptionEntry) :
    ∀ start, srtLines body start = numberedBlocks start (srtSurvivors body) := by
  induction body with
  | nil => intro start; rfl
  | cons item rest ih =>
    intro start
    by_cases h : pyStrip (pyOrStrD item.content "") = ""
    · rw [show srtLines (item :: rest) start = srtLines rest start by
        simp [srtLines, h]]
      rw [show srtSurvivors (item :: rest) = srtSurvivors rest by
        simp [srtSurvivors, List.filter_cons, h]]
      exact ih start
    · rw [show srtSurvivors (item :: rest) = item :: srtSurvivors rest by
        simp [srtSurvivors, List.filter_cons, h]]
      rw [show srtLines (item :: rest) start =
          toString start
            :: (fmt_time item.fromSec ++ " --> " ++ fmt_time item.toSec)
            :: pyStrip (pyOrStrD item.content "") :: "" :: srtLines rest (start + 1) by
        simp [srtLines, h]]
      rw [ih (start + 1)]
      simp [numberedBlocks, List.range'_succ]

/-- C6: SRT conversion first drops every entry whose stripped text is
blank, then numbers the survivors: the emitted index lines are exactly
`1..N` (via `List.range' 1 N`), contiguous and in the original order, and
a blank entry never consumes an index. -/
theorem json_subtitle_to_srt_indices (body : List CaptionEntry) :
    json_subtitle_to_srt body =
      String.intercalate "\n" (numberedBlocks 1 (srtSurvivors body)) :=
  congrArg (String.intercalate "\n") (srtLines_eq_numberedBlocks body 1)

/-! ## Time formatting (C7) -/

theorem rat_floor_eq_intFloor (q : ℚ) : q.floor = ⌊q⌋ := by
  rw [Rat.floor_def', Rat.floor_def]

theorem int_floor_div_int (t : ℚ) (n : ℤ) (hn : 0 < n) :
    ⌊t / (n : ℚ)⌋ = ⌊t⌋ / n := by
  have hn' : (0 : ℚ) < (n : ℚ) := by exact_mod_cast hn
  rw [Int.floor_eq_iff]
  constructor
  · rw [le_div_iff hn']
    have hstep : ((⌊t⌋ / n * n : ℤ) : ℚ) ≤ ((⌊t⌋ : ℤ) : ℚ) := by
      exact_mod_cast Int.ediv_mul_le ⌊t⌋ hn.ne'
    calc ((⌊t⌋ / n : ℤ) : ℚ) * (n : ℚ) = ((⌊t⌋ / n * n : ℤ) : ℚ) := by push_cast; ring
      _ ≤ ((⌊t⌋ : ℤ) : ℚ) := hstep
      _ ≤ t := Int.floor_le t
  · rw [div_lt_iff hn']
    have h2 : ⌊t⌋ + 1 ≤ (⌊t⌋ / n + 1) * n :=
      Int.add_one_le_iff.mpr (Int.lt_ediv_add_one_mul_self ⌊t⌋ hn)
    calc t < (⌊t⌋ : ℚ) + 1 := Int.lt_floor_add_one t
      _ = ((⌊t⌋ + 1 : ℤ) : ℚ) := by push_cast; ring
      _ ≤ (((⌊t⌋ / n + 1) * n : ℤ) : ℚ) := by exact_mod_cast h2
      _ = (((⌊t⌋ / n : ℤ) : ℚ) + 1) * (n : ℚ) := by push_cast; ring

/-- C7: for nonnegative `t`, `fmt_time` renders
`floor(t/3600) : floor(t/60) mod 60 : floor(t) mod 60 , round((t-floor t)*1000)`,
each zero-padded to 2/2/2/3 digits (`pyPadInt`), with `pyRound` the
(half-to-even) rounding of Python's `round`. -/
theorem fmt_time_renders_fields (t : ℚ) (h : 0 ≤ t) :
    fmt_time t =
      pyPadInt 2 ⌊t / 3600⌋ ++ ":" ++ pyPadInt 2 (⌊t / 60⌋ % 60) ++ ":" ++
      pyPadInt 2 (⌊t⌋ % 60) ++ "," ++ pyPadInt 3 (pyRound ((t - (⌊t⌋ : ℚ)) * 1000)) := by
  have hint : pyInt t = ⌊t⌋ := by
    rw [pyInt, if_pos h, rat_floor_eq_intFloor]
  have hdiv3600 : ⌊t⌋.fdiv 3600 = ⌊t / 3600⌋ := by
    rw [Int.fdiv_eq_ediv _ (by norm_num)]
    have := int_floor_div_int t 3600 (by norm_num)
    norm_num at this
    rw [this]
  have hdiv60 : ⌊t⌋.fdiv 60 = ⌊t / 60⌋ := by
    rw [Int.fdiv_eq_ediv _ (by norm_num)]
    have := int_floor_div_int t 60 (by norm_num)
    norm_num at this
    rw [this]
  have hmod : ∀ z : ℤ, z.fmod 60 = z % 60 := fun z => Int.fmod_eq_emod _ (by norm_num)
  simp only [fmt_time, hint, hdiv3600, hdiv60, hmod]


/-- Witness for C7: `t = 3725.250` renders as `01:02:05,250`. -/
theorem fmt_time_renders_fields_witness :
    (0 : ℚ) ≤ 3725.25 ∧ fmt_time 3725.25 = "01:02:05,250" := by
  refine ⟨by norm_num, ?_⟩
  rw [fmt_time_renders_fields 3725.25 (by norm_num)]
  norm_num
  have hpr : pyRound ((250 : ℚ)) = 250 := by
    unfold pyRound
    rw [rat_floor_eq_intFloor]
    norm_num
  rw [hpr]
  decide

/-! ## Priority selection (C3) -/

theorem foldl_bucketAdd_fields (subs : List SubtitleTrack) : ∀ b : Buckets,
    (subs.foldl bucketAdd b).en = b.en ++ categoryBucket subs "en" ∧
    (subs.foldl bucketAdd b).zh = b.zh ++ categoryBucket subs "zh" ∧
    (subs.foldl bucketAdd b).other = b.other ++ categoryBucket subs "other" := by
  induction subs with
  | nil => intro b; simp [categoryBucket]
  | cons it rest ih =>
    intro b
    rw [List.foldl_cons]
    rcases categorize_cases it.lan with hc | hc | hc
    · have hba : bucketAdd b it = { b with en := b.en ++ [it] } := by
        simp [bucketAdd, hc]
      rw [hba]
      obtain ⟨ih1, ih2, ih3⟩ := ih { b with en := b.en ++ [it] }
      refine ⟨?_, ?_, ?_⟩
      · rw [ih1]; simp [categoryBucket, List.filter_cons, hc]
      · rw [ih2]; simp [categoryBucket, List.filter_cons, hc]
      · rw [ih3]; simp [categoryBucket, List.filter_cons, hc]
    · have hba : bucketAdd b it = { b with zh := b.zh ++ [it] } := by
        simp [bucketAdd, hc]
      rw [hba]
      obtain ⟨ih1, ih2, ih3⟩ := ih { b with zh := b.zh ++ [it] }
      refine ⟨?_, ?_, ?_⟩
      · rw [ih1]; simp [categoryBucket, List.filter_cons, hc]
      · rw [ih2]; simp [categoryBucket, List.filter_cons, hc]
      · rw [ih3]; simp [categoryBucket, List.filter_cons, hc]
    · have hba : bucketAdd b it = { b with other := b.other ++ [it] } := by
        simp [bucketAdd, hc]
      rw [hba]
      obtain ⟨ih1, ih2, ih3⟩ := ih { b with other := b.other ++ [it] }
      refine ⟨?_, ?_, ?_⟩
      · rw [ih1]; simp [categoryBucket, List.filter_cons, hc]
      · rw [ih2]; simp [categoryBucket, List.filter_cons, hc]
      · rw [ih3]; simp [categoryBucket, List.filter_cons, hc]

theorem bucketsGet_foldl (subs : List SubtitleTrack) (p : String) :
    bucketsGet (subs.foldl bucketAdd ⟨[], [], []⟩) p =
      if p = "en" then some (categoryBucket subs "en")
      else if p = "zh" then some (categoryBucket subs "zh")
      else if p = "other" then some (categoryBucket subs "other")
      else none := by
  obtain ⟨h1, h2, h3⟩ := foldl_bucketAdd_fields subs ⟨[], [], []⟩
  simp only [bucketsGet, h1, h2, h3, List.nil_append]

theorem categoryBucket_unknown (subs : List SubtitleTrack) (p : String)
    (h1 : p ≠ "en") (h2 : p ≠ "zh") (h3 : p ≠ "other") :
    categoryBucket subs p = [] := by
  unfold categoryBucket
  rw [List.filter_eq_nil]
  intro it _
  rcases categorize_cases it.lan with hc | hc | hc <;> simp [hc] <;>
    intro heq
  · exact h1 heq.symm
  · exact h2 heq.symm
  · exact h3 heq.symm

theorem pickByPriority_spec (subs : List SubtitleTrack) : ∀ priority,
    ((∀ q ∈ priority, categoryBucket subs q = []) →
      pickByPriority (subs.foldl bucketAdd ⟨[], [], []⟩) priority = ([], "")) ∧
    (∀ sel picked,
      pickByPriority (subs.foldl bucketAdd ⟨[], [], []⟩) priority = (sel, picked) →
      sel ≠ [] →
      ∃ pre post, priority = pre ++ picked :: post ∧
        (∀ q ∈ pre, categoryBucket subs q = []) ∧
        sel = categoryBucket subs picked) := by
  intro priority
  induction priority with
  | nil =>
    refine ⟨fun _ => rfl, fun sel picked h hne => ?_⟩
    have h1 : sel = [] := congrArg Prod.fst h.symm
    exact absurd h1 hne
  | cons p ps ih =>
    have hrec : ∀ bkt, bucketsGet (subs.foldl bucketAdd ⟨[], [], []⟩) p = some bkt →
        bkt = categoryBucket subs p := by
      intro bkt hb
      rw [bucketsGet_foldl] at hb
      split_ifs at hb with e1 e2 e3 <;> first
        | (injection hb with hb'; subst hb'; rw [‹p = _›])
        | exact absurd hb (by simp)
    have hunknown : bucketsGet (subs.foldl bucketAdd ⟨[], [], []⟩) p = none →
        categoryBucket subs p = [] := by
      intro hb
      rw [bucketsGet_foldl] at hb
      split_ifs at hb with e1 e2 e3
      exact categoryBucket_unknown subs p e1 e2 e3
    constructor
    · intro hall
      show pickByPriority _ (p :: ps) = ([], "")
      unfold pickByPriority
      cases hb : bucketsGet (subs.foldl bucketAdd ⟨[], [], []⟩) p with
      | none => exact (ih.1 fun q hq => hall q (List.mem_cons_of_mem p hq))
      | some bkt =>
        dsimp only
        have hbe : bkt = [] := by
          rw [hrec bkt hb]
          exact hall p (List.mem_cons_self p ps)
        rw [if_pos hbe]
        exact (ih.1 fun q hq => hall q (List.mem_cons_of_mem p hq))
    · intro sel picked h hne
      unfold pickByPriority at h
      cases hb : bucketsGet (subs.foldl bucketAdd ⟨[], [], []⟩) p with
      | none =>
        rw [hb] at h
        dsimp only at h
        obtain ⟨pre, post, e1, e2, e3⟩ := ih.2 sel picked h hne
        refine ⟨p :: pre, post, by simp [e1], ?_, e3⟩
        intro q hq
        rcases List.mem_cons.mp hq with rfl | hq'
        · exact hunknown hb
        · exact e2 q hq'
      | some bkt =>
        rw [hb] at h
        dsimp only at h
        by_cases hempty : bkt = []
        · rw [if_pos hempty] at h
          obtain ⟨pre, post, e1, e2, e3⟩ := ih.2 sel picked h hne
          refine ⟨p :: pre, post, by simp [e1], ?_, e3⟩
          intro q hq
          rcases List.mem_cons.mp hq with rfl | hq'
          · rw [← hrec bkt hb, hempty]
          · exact e2 q hq'
        · rw [if_neg hempty] at h
          injection h with h1 h2
          subst h1; subst h2
          exact ⟨[], ps, rfl, by simp, hrec _ hb⟩

theorem pickByPriority_first_nonempty (subs : List SubtitleTrack) :
    ∀ (pre : List String) (p : String) (post : List String),
    (∀ q ∈ pre, categoryBucket subs q = []) →
    categoryBucket subs p ≠ [] →
    pickByPriority (subs.foldl bucketAdd ⟨[], [], []⟩) (pre ++ p :: post) =
      (categoryBucket subs p, p) := by
  intro pre
  induction pre with
  | nil =>
    intro p post _ hp
    show pickByPriority _ (p :: post) = _
    unfold pickByPriority
    cases hb : bucketsGet (subs.foldl bucketAdd ⟨[], [], []⟩) p with
    | none =>
      exfalso
      rw [bucketsGet_foldl] at hb
      split_ifs at hb with e1 e2 e3
      exact hp (categoryBucket_unknown subs p e1 e2 e3)
    | some bkt =>
      dsimp only
      have hbe : bkt = categoryBucket subs p := by
        rw [bucketsGet_foldl] at hb
        split_ifs at hb with e1 e2 e3 <;> first
          | (injection hb with hb'; subst hb'; rw [‹p = _›])
          | exact absurd hb (by simp)
      rw [if_neg (by rw [hbe]; exact hp), hbe]
  | cons q pre' ih =>
    intro p post hall hp
    have hq : categoryBucket subs q = [] := hall q (List.mem_cons_self q pre')
    show pickByPriority _ (q :: (pre' ++ p :: post)) = _
    unfold pickByPriority
    cases hb : bucketsGet (subs.foldl bucketAdd ⟨[], [], []⟩) q with
    | none => exact ih p post (fun x hx => hall x (List.mem_cons_of_mem q hx)) hp
    | some bkt =>
      dsimp only
      have hbe : bkt = [] := by
        have hq' : bkt = categoryBucket subs q := by
          rw [bucketsGet_foldl] at hb
          split_ifs at hb with e1 e2 e3 <;> first
            | (injection hb with hb'; subst hb'; rw [‹q = _›])
            | exact absurd hb (by simp)
        rw [hq', hq]
      rw [if_pos hbe]
      exact ih p post (fun x hx => hall x (List.mem_cons_of_mem q hx)) hp

/-- C3: priority selection returns the entire bucket (an order-preserving
filter of the enumerated tracks) of the first priority entry whose bucket
is non-empty: whenever the priority list splits as `pre ++ p :: post` with
every bucket of `pre` empty and the bucket of `p` non-empty, the selection
IS `p`'s full bucket with `p` as the picked category.  Conversely a
non-empty selection is always such a first bucket, every selected track
belongs to that single category, and when no priority entry names a
non-empty bucket the selection is empty. -/
theorem select_by_priority_first_nonempty_bucket (subs : List SubtitleTrack)
    (priority : List String) :
    (∀ pre p post,
      priority = pre ++ p :: post →
      (∀ q ∈ pre, categoryBucket subs q = []) →
      categoryBucket subs p ≠ [] →
      select_by_priority subs priority = (categoryBucket subs p, p)) ∧
    ((select_by_priority subs priority).1 ≠ [] →
      ∃ pre post,
        priority = pre ++ (select_by_priority subs priority).2 :: post ∧
        (∀ q ∈ pre, categoryBucket subs q = []) ∧
        (select_by_priority subs priority).1 =
          categoryBucket subs (select_by_priority subs priority).2 ∧
        (∀ it ∈ (select_by_priority subs priority).1,
          categorize_language it.lan = (select_by_priority subs priority).2)) ∧
    ((∀ q ∈ priority, categoryBucket subs q = []) →
      select_by_priority subs priority = ([], "")) := by
  refine ⟨?_, ?_, ?_⟩
  · intro pre p post heq hpre hp
    rw [heq]
    exact pickByPriority_first_nonempty subs pre p post hpre hp
  · intro hne
    obtain ⟨pre, post, h1, h2, h3⟩ :=
      (pickByPriority_spec subs priority).2 (select_by_priority subs priority).1
        (select_by_priority subs priority).2 rfl hne
    refine ⟨pre, post, h1, h2, h3, ?_⟩
    intro it hit
    rw [h3] at hit
    have := (List.mem_filter.mp hit).2
    exact of_decide_eq_true this
  · intro hall
    exact (pickByPriority_spec subs priority).1 hall

/-- Witness for C3: with a French and a zh-CN track and priority
`["en", "zh"]`, the en bucket is empty and the zh bucket non-empty, so the
selection is exactly the zh bucket — the spec's scenario-4 fall-through,
using the unconditional returns-the-first-non-empty-bucket conjunct. -/
theorem select_by_priority_first_nonempty_bucket_witness :
    select_by_priority [⟨"fr", "u1"⟩, ⟨"zh-CN", "u2"⟩] ["en", "zh"] =
      (categoryBucket [⟨"fr", "u1"⟩, ⟨"zh-CN", "u2"⟩] "zh", "zh") :=
  (select_by_priority_first_nonempty_bucket [⟨"fr", "u1"⟩, ⟨"zh-CN", "u2"⟩]
    ["en", "zh"]).1 ["en"] "zh" [] rfl (by decide) (by decide)

/-! ## Unified entry point: execution helpers -/

theorem fetch_of_core_ok (env : FetchEnv) (url : String)
    (wl lp : Option (List String)) (r : FetchResult)
    (h : fetch_core env url wl lp = .ok r) :
    fetch_bilibili_subtitle_text env url wl lp = r := by
  unfold fetch_bilibili_subtitle_text
  rw [h]

theorem fetch_of_core_error (env : FetchEnv) (url : String)
    (wl lp : Option (List String)) (e : String)
    (h : fetch_core env url wl lp = .error e) :
    fetch_bilibili_subtitle_text env url wl lp = ⟨99, "处理异常: " ++ e, "", ""⟩ := by
  unfold fetch_bilibili_subtitle_text
  rw [h]

theorem fetch_core_after_enum (env : FetchEnv) (url : String)
    (wl lp : Option (List String)) (aid cid : ℤ) (subs : List SubtitleTrack)
    (hv : env.view (parse_input_to_bvid env.resolve url).1 = .ok (aid, cid))
    (he : enumerateTracks (env.web aid cid) (env.pv2 aid cid) (env.dm cid) = .ok subs) :
    fetch_core env url wl lp =
      if subs = [] then .ok ⟨1, "未发现可用字幕（未登录或仅AI且接口不返回）", "", ""⟩
      else if truthyListOpt wl then
        match whitelistFiltered subs (wl.getD []) with
        | [] => .ok ⟨2, "按白名单过滤后无可用字幕。", "", ""⟩
        | pick :: _ => fetchPick env pick
      else
        match (select_by_priority subs (prioOf lp)).1 with
        | [] => .ok ⟨3, "按优先级选择后无可用字幕。", "", ""⟩
        | pick :: _ => fetchPick env pick := by
  simp only [fetch_core]
  rw [hv]
  dsimp only
  rw [he]

/-! ## Whitelist filtering (C5) -/

/-- C5: with a non-empty whitelist, a track is kept iff its language code
equals an entry, or starts with an entry that ends in the separator `-`;
matches keep the original order (sublist); the result never depends on the
priority list; and an empty match set produces the status-2 result. -/
theorem whitelist_filter_overrides_priority (subs : List SubtitleTrack)
    (wl : List String) (hwl : wl ≠ []) :
    (∀ it, it ∈ whitelistFiltered subs wl ↔
      (it ∈ subs ∧ ∃ w ∈ wl, it.lan = w ∨
        (pyStartsWith it.lan w = true ∧ pyEndsWith w "-" = true))) ∧
    (whitelistFiltered subs wl).Sublist subs ∧
    (∀ env url lp lp',
      fetch_bilibili_subtitle_text env url (some wl) lp =
        fetch_bilibili_subtitle_text env url (some wl) lp') ∧
    (∀ env url lp aid cid,
      env.view (parse_input_to_bvid env.resolve url).1 = .ok (aid, cid) →
      enumerateTracks (env.web aid cid) (env.pv2 aid cid) (env.dm cid) = .ok subs →
      subs ≠ [] → whitelistFiltered subs wl = [] →
      fetch_bilibili_subtitle_text env url (some wl) lp =
        ⟨2, "按白名单过滤后无可用字幕。", "", ""⟩) := by
  obtain ⟨w0, ws, rfl⟩ : ∃ w0 ws, wl = w0 :: ws := by
    cases wl with
    | nil => exact absurd rfl hwl
    | cons a l => exact ⟨a, l, rfl⟩
  refine ⟨?_, List.filter_sublist subs, ?_, ?_⟩
  · intro it
    simp only [whitelistFiltered, List.mem_filter, whitelistMatches,
      List.any_eq_true, Bool.or_eq_true, Bool.and_eq_true, decide_eq_true_eq]
  · intro env url lp lp'
    rfl
  · intro env url lp aid cid hv he hs hf
    have ht : truthyListOpt (some (w0 :: ws)) = true := rfl
    have hcore := fetch_core_after_enum env url (some (w0 :: ws)) lp aid cid subs hv he
    rw [if_neg hs, if_pos ht] at hcore
    have hf' : whitelistFiltered subs ((some (w0 :: ws)).getD []) = [] := hf
    rw [hf'] at hcore
    exact fetch_of_core_ok env url (some (w0 :: ws)) lp _ hcore

/-- Witness for C5: whitelist `["en-"]` keeps exactly the en-US track of
the two-track fixture, whatever the priority argument. -/
theorem whitelist_filter_overrides_priority_witness :
    (⟨"en-US", "u-en"⟩ : SubtitleTrack) ∈
        whitelistFiltered [⟨"zh-CN", "u-zh"⟩, ⟨"en-US", "u-en"⟩] ["en-"] ∧
    fetch_bilibili_subtitle_text envTwoTracks "BVx" (some ["en-"]) none =
      fetch_bilibili_subtitle_text envTwoTracks "BVx" (some ["en-"]) (some ["zh"]) :=
  ⟨((whitelist_filter_overrides_priority [⟨"zh-CN", "u-zh"⟩, ⟨"en-US", "u-en"⟩]
      ["en-"] (by decide)).1 ⟨"en-US", "u-en"⟩).mpr
        (by refine ⟨by decide, "en-", by decide, Or.inr ⟨by decide, by decide⟩⟩),
    (whitelist_filter_overrides_priority [⟨"zh-CN", "u-zh"⟩, ⟨"en-US", "u-en"⟩]
      ["en-"] (by decide)).2.2.1 envTwoTracks "BVx" none (some ["zh"])⟩

/-! ## Enumeration fallback (C2) -/

/-- C2: enumeration consults web-player, then player-v2, then danmaku-view,
returning the first non-empty track list unmerged; a service error from the
first endpoint raises and aborts the enumeration, a service error from the
second or third yields an empty list for that endpoint and falls through;
three empty lists give the empty result, not an exception. -/
theorem enumerateTracks_fallback_order (web pv2 dm : Except String RawSubResp) :
    (∀ l1, get_subtitle_list_web web = .ok l1 → l1 ≠ [] →
      enumerateTracks web pv2 dm = .ok l1) ∧
    (∀ l2, get_subtitle_list_web web = .ok [] →
      get_subtitle_list_player_v2 pv2 = .ok l2 → l2 ≠ [] →
      enumerateTracks web pv2 dm = .ok l2) ∧
    (∀ l3, get_subtitle_list_web web = .ok [] →
      get_subtitle_list_player_v2 pv2 = .ok [] →
      get_subtitle_list_app_dmview_json dm = .ok l3 →
      enumerateTracks web pv2 dm = .ok l3) ∧
    (∀ r, web = .ok r → r.code ≠ 0 →
      enumerateTracks web pv2 dm =
        .error ("player api error: " ++ toString r.code ++ " " ++ r.message)) ∧
    (∀ r, pv2 = .ok r → r.code ≠ 0 → get_subtitle_list_player_v2 pv2 = .ok []) ∧
    (∀ r, dm = .ok r → r.code ≠ 0 → get_subtitle_list_app_dmview_json dm = .ok []) ∧
    (get_subtitle_list_web web = .ok [] → get_subtitle_list_player_v2 pv2 = .ok [] →
      get_subtitle_list_app_dmview_json dm = .ok [] →
      enumerateTracks web pv2 dm = .ok []) := by
  refine ⟨?_, ?_, ?_, ?_, ?_, ?_, ?_⟩
  · intro l1 h1 hne
    unfold enumerateTracks
    rw [h1]
    dsimp only
    rw [if_pos hne]
  · intro l2 h1 h2 hne
    unfold enumerateTracks
    rw [h1]
    dsimp only
    rw [if_neg (by simp), h2]
    dsimp only
    rw [if_pos hne]
  · intro l3 h1 h2 h3
    unfold enumerateTracks
    rw [h1]
    dsimp only
    rw [if_neg (by simp), h2]
    dsimp only
    rw [if_neg (by simp), h3]
  · intro r hw hcode
    have hweb : get_subtitle_list_web web =
        .error ("player api error: " ++ toString r.code ++ " " ++ r.message) := by
      rw [hw]
      unfold get_subtitle_list_web
      dsimp only
      rw [if_pos hcode]
    unfold enumerateTracks
    rw [hweb]
  · intro r hp hcode
    rw [hp]
    unfold get_subtitle_list_player_v2
    dsimp only
    rw [if_pos hcode]
  · intro r hd hcode
    rw [hd]
    unfold get_subtitle_list_app_dmview_json
    dsimp only
    rw [if_pos hcode]
  · intro h1 h2 h3
    unfold enumerateTracks
    rw [h1]
    dsimp only
    rw [if_neg (by simp), h2]
    dsimp only
    rw [if_neg (by simp), h3]

/-- Witness for C2: the web endpoint lists nothing, player-v2 answers a
service error (so contributes an empty list), and the danmaku-view list is
taken. -/
theorem enumerateTracks_fallback_order_witness :
    enumerateTracks (.ok ⟨0, "", []⟩) (.ok ⟨-404, "err", []⟩)
        (.ok ⟨0, "", [⟨none, some "u", some "ai-zh", none⟩]⟩) =
      .ok [⟨"ai-zh", "u"⟩] :=
  (enumerateTracks_fallback_order _ _ _).2.2.1 [⟨"ai-zh", "u"⟩]
    (by rfl)
    ((enumerateTracks_fallback_order (.ok ⟨0, "", []⟩) (.ok ⟨-404, "err", []⟩)
        (.ok ⟨0, "", [⟨none, some "u", some "ai-zh", none⟩]⟩)).2.2.2.2.1
      ⟨-404, "err", []⟩ rfl (by decide))
    (by rfl)

/-! ## Status codes of the unified entry point (C1, C10) -/

theorem fetch_core_ok_shape (env : FetchEnv) (url : String)
    (wl lp : Option (List String)) (res : FetchResult)
    (h : fetch_core env url wl lp = .ok res) :
    res.code = 0 ∨
      ((res.code = 1 ∨ res.code = 2 ∨ res.code = 3) ∧
        res.text = "" ∧ res.lang = "") := by
  simp only [fetch_core] at h
  cases hv : env.view (parse_input_to_bvid env.resolve url).1 with
  | error e => rw [hv] at h; simp at h
  | ok pr =>
    rw [hv] at h
    obtain ⟨aid, cid⟩ := pr
    dsimp only at h
    cases he : enumerateTracks (env.web aid cid) (env.pv2 aid cid) (env.dm cid) with
    | error e => rw [he] at h; simp at h
    | ok subs =>
      rw [he] at h
      dsimp only at h
      by_cases hs : subs = []
      · rw [if_pos hs] at h
        injection h with h'
        right; rw [← h']; exact ⟨Or.inl rfl, rfl, rfl⟩
      · rw [if_neg hs] at h
        by_cases ht : truthyListOpt wl = true
        · rw [if_pos ht] at h
          cases hf : whitelistFiltered subs (wl.getD []) with
          | nil =>
            rw [hf] at h
            injection h with h'
            right; rw [← h']; exact ⟨Or.inr (Or.inl rfl), rfl, rfl⟩
          | cons pick rest =>
            rw [hf] at h
            dsimp only at h
            unfold fetchPick at h
            cases hp : env.payload pick.url with
            | error e => rw [hp] at h; simp at h
            | ok body =>
              rw [hp] at h
              injection h with h'
              left; rw [← h']
        · rw [if_neg ht] at h
          cases hsel : (select_by_priority subs (prioOf lp)).1 with
          | nil =>
            rw [hsel] at h
            injection h with h'
            right; rw [← h']; exact ⟨Or.inr (Or.inr rfl), rfl, rfl⟩
          | cons pick rest =>
            rw [hsel] at h
            dsimp only at h
            unfold fetchPick at h
            cases hp : env.payload pick.url with
            | error e => rw [hp] at h; simp at h
            | ok body =>
              rw [hp] at h
              injection h with h'
              left; rw [← h']

/-- C10: whenever the unified entry point returns a non-zero status code
(1, 2, 3 or 99), the result's text and language fields are both empty. -/
theorem fetch_nonzero_code_empty_fields (env : FetchEnv) (url : String)
    (wl lp : Option (List String))
    (h : (fetch_bilibili_subtitle_text env url wl lp).code ≠ 0) :
    (fetch_bilibili_subtitle_text env url wl lp).text = "" ∧
    (fetch_bilibili_subtitle_text env url wl lp).lang = "" := by
  cases hc : fetch_core env url wl lp with
  | error e =>
    rw [fetch_of_core_error env url wl lp e hc]
    exact ⟨rfl, rfl⟩
  | ok res =>
    rw [fetch_of_core_ok env url wl lp res hc] at h ⊢
    rcases fetch_core_ok_shape env url wl lp res hc with h0 | ⟨_, ht, hl⟩
    · exact absurd h0 h
    · exact ⟨ht, hl⟩

/-- Witness for C10: the two-track fixture filtered by an unmatched
whitelist returns code 2 with empty text and language. -/
theorem fetch_nonzero_code_empty_fields_witness :
    (fetch_bilibili_subtitle_text envTwoTracks "BVx" (some ["fr"]) none).code ≠ 0 ∧
    (fetch_bilibili_subtitle_text envTwoTracks "BVx" (some ["fr"]) none).text = "" ∧
    (fetch_bilibili_subtitle_text envTwoTracks "BVx" (some ["fr"]) none).lang = "" :=
  ⟨by decide,
   fetch_nonzero_code_empty_fields envTwoTracks "BVx" (some ["fr"]) none (by decide)⟩

/-- C1: the unified entry point's status code is always one of
0, 1, 2, 3, 99, with: 99 when the pipeline raised (the message is captured,
nothing propagates — the function is total by construction); 1 when all
three enumeration endpoints yield empty track lists (empty text and
language); 2 when a supplied whitelist filters down to nothing; 3 when
priority selection is empty; 0 when a track was selected and its payload
converted. -/
theorem fetch_status_code_meanings (env : FetchEnv) (url : String)
    (wl lp : Option (List String)) :
    ((fetch_bilibili_subtitle_text env url wl lp).code = 0 ∨
     (fetch_bilibili_subtitle_text env url wl lp).code = 1 ∨
     (fetch_bilibili_subtitle_text env url wl lp).code = 2 ∨
     (fetch_bilibili_subtitle_text env url wl lp).code = 3 ∨
     (fetch_bilibili_subtitle_text env url wl lp).code = 99) ∧
    (∀ e, fetch_core env url wl lp = .error e →
      fetch_bilibili_subtitle_text env url wl lp = ⟨99, "处理异常: " ++ e, "", ""⟩) ∧
    (∀ aid cid, env.view (parse_input_to_bvid env.resolve url).1 = .ok (aid, cid) →
      get_subtitle_list_web (env.web aid cid) = .ok [] →
      get_subtitle_list_player_v2 (env.pv2 aid cid) = .ok [] →
      get_subtitle_list_app_dmview_json (env.dm cid) = .ok [] →
      fetch_bilibili_subtitle_text env url wl lp =
        ⟨1, "未发现可用字幕（未登录或仅AI且接口不返回）", "", ""⟩) ∧
    (∀ aid cid subs,
      env.view (parse_input_to_bvid env.resolve url).1 = .ok (aid, cid) →
      enumerateTracks (env.web aid cid) (env.pv2 aid cid) (env.dm cid) = .ok subs →
      subs ≠ [] → truthyListOpt wl = true →
      whitelistFiltered subs (wl.getD []) = [] →
      fetch_bilibili_subtitle_text env url wl lp =
        ⟨2, "按白名单过滤后无可用字幕。", "", ""⟩) ∧
    (∀ aid cid subs,
      env.view (parse_input_to_bvid env.resolve url).1 = .ok (aid, cid) →
      enumerateTracks (env.web aid cid) (env.pv2 aid cid) (env.dm cid) = .ok subs →
      subs ≠ [] → truthyListOpt wl = false →
      (select_by_priority subs (prioOf lp)).1 = [] →
      fetch_bilibili_subtitle_text env url wl lp =
        ⟨3, "按优先级选择后无可用字幕。", "", ""⟩) ∧
    (∀ aid cid subs pick rest body,
      env.view (parse_input_to_bvid env.resolve url).1 = .ok (aid, cid) →
      enumerateTracks (env.web aid cid) (env.pv2 aid cid) (env.dm cid) = .ok subs →
      subs ≠ [] → selectedTracks wl lp subs = pick :: rest →
      env.payload pick.url = .ok body →
      fetch_bilibili_subtitle_text env url wl lp =
        ⟨0, "ok", subtitle_json_to_plaintext body, pick.lan⟩) := by
  refine ⟨?_, ?_, ?_, ?_, ?_, ?_⟩
  · cases hc : fetch_core env url wl lp with
    | error e =>
      rw [fetch_of_core_error env url wl lp e hc]
      exact Or.inr (Or.inr (Or.inr (Or.inr rfl)))
    | ok res =>
      rw [fetch_of_core_ok env url wl lp res hc]
      rcases fetch_core_ok_shape env url wl lp res hc with h0 | ⟨h123, _, _⟩
      · exact Or.inl h0
      · rcases h123 with h | h | h
        · exact Or.inr (Or.inl h)
        · exact Or.inr (Or.inr (Or.inl h))
        · exact Or.inr (Or.inr (Or.inr (Or.inl h)))
  · intro e hc
    exact fetch_of_core_error env url wl lp e hc
  · intro aid cid hv hw hp hd
    have he : enumerateTracks (env.web aid cid) (env.pv2 aid cid) (env.dm cid) =
        .ok [] := by
      unfold enumerateTracks
      rw [hw]
      dsimp only
      rw [if_neg (by simp), hp]
      dsimp only
      rw [if_neg (by simp), hd]
    have hcore := fetch_core_after_enum env url wl lp aid cid [] hv he
    rw [if_pos rfl] at hcore
    exact fetch_of_core_ok env url wl lp _ hcore
  · intro aid cid subs hv he hs ht hf
    have hcore := fetch_core_after_enum env url wl lp aid cid subs hv he
    rw [if_neg hs, if_pos ht, hf] at hcore
    exact fetch_of_core_ok env url wl lp _ hcore
  · intro aid cid subs hv he hs ht hsel
    have hcore := fetch_core_after_enum env url wl lp aid cid subs hv he
    rw [if_neg hs, if_neg (by simp [ht]), hsel] at hcore
    exact fetch_of_core_ok env url wl lp _ hcore
  · intro aid cid subs pick rest body hv he hs hsel hp
    have hcore := fetch_core_after_enum env url wl lp aid cid subs hv he
    rw [if_neg hs] at hcore
    by_cases ht : truthyListOpt wl = true
    · unfold selectedTracks at hsel
      rw [if_pos ht] at hsel
      rw [if_pos ht, hsel] at hcore
      dsimp only at hcore
      unfold fetchPick at hcore
      rw [hp] at hcore
      exact fetch_of_core_ok env url wl lp _ hcore
    · unfold selectedTracks at hsel
      rw [if_neg ht] at hsel
      rw [if_neg ht, hsel] at hcore
      dsimp only at hcore
      unfold fetchPick at hcore
      rw [hp] at hcore
      exact fetch_of_core_ok env url wl lp _ hcore

/-- Witness for C1: an environment whose three endpoints list nothing
yields the status-1 result with empty text and language. -/
theorem fetch_status_code_meanings_witness :
    fetch_bilibili_subtitle_text envEmpty "BVa" none none =
      ⟨1, "未发现可用字幕（未登录或仅AI且接口不返回）", "", ""⟩ :=
  (fetch_status_code_meanings envEmpty "BVa" none none).2.2.1 1 2 rfl rfl rfl rfl

/-! ## Reference resolution (C8, C9) -/

theorem bvAt_some (l r : List Char) (h : bvAt l = some r) :
    ∃ suf, l = r ++ suf ∧
      (∃ run, r = 'B' :: 'V' :: run ∧ run ≠ [] ∧ ∀ c ∈ run, isAlnumAscii c = true) ∧
      (∀ c cs, suf = c :: cs → isAlnumAscii c = false) := by
  match l with
  | [] => simp [bvAt] at h
  | [a] => simp [bvAt] at h
  | a :: b :: rest =>
    simp only [bvAt] at h
    by_cases hab : a = 'B' ∧ b = 'V'
    · rw [if_pos hab] at h
      by_cases hrun : rest.takeWhile isAlnumAscii = []
      · rw [if_pos hrun] at h; simp at h
      · rw [if_neg hrun] at h
        injection h with h'
        subst h'
        refine ⟨rest.dropWhile isAlnumAscii, ?_, ?_, ?_⟩
        · simp only [List.cons_append]
          rw [List.takeWhile_append_dropWhile]
        · exact ⟨rest.takeWhile isAlnumAscii, by rw [hab.1, hab.2], hrun,
            fun c hc => List.mem_takeWhile_imp hc⟩
        · intro c cs hcs
          exact dropWhile_head_false _ rest c cs hcs
    · rw [if_neg hab] at h; simp at h

theorem firstBv_spec : ∀ (l r : List Char), firstBv l = some r →
    ∃ pre suf, l = pre ++ r ++ suf ∧
      (∃ run, r = 'B' :: 'V' :: run ∧ run ≠ [] ∧ ∀ c ∈ run, isAlnumAscii c = true) ∧
      (∀ c cs, suf = c :: cs → isAlnumAscii c = false) ∧
      (∀ t, t <:+ l → r.length + suf.length < t.length → bvAt t = none) := by
  intro l
  induction l with
  | nil => intro r h; simp [firstBv] at h
  | cons c cs ih =>
    intro r h
    unfold firstBv at h
    cases hb : bvAt (c :: cs) with
    | some r0 =>
      rw [hb] at h
      dsimp only at h
      injection h with h'
      subst h'
      obtain ⟨suf, hl, hshape, hbound⟩ := bvAt_some _ _ hb
      refine ⟨[], suf, by simpa using hl, hshape, hbound, ?_⟩
      intro t hsuffix hlen
      exfalso
      have h1 := List.IsSuffix.length_le hsuffix
      have h2 := congrArg List.length hl
      rw [List.length_append] at h2
      simp only [List.length_cons] at h1 h2
      omega
    | none =>
      rw [hb] at h
      dsimp only at h
      obtain ⟨pre, suf, hl, hshape, hbound, hleft⟩ := ih r h
      refine ⟨c :: pre, suf, by simp [hl], hshape, hbound, ?_⟩
      intro t hsuffix hlen
      rcases List.suffix_cons_iff.mp hsuffix with rfl | hsuffix'
      · exact hb
      · exact hleft t hsuffix' hlen

/-- C8: when the input contains a BV-pattern substring, the resolver
returns the leftmost, greedily maximal such substring unchanged — it is an
infix of the input of shape `BV` + nonempty alphanumeric run, no longer
suffix of the input starts a BV match, and the character right after the
match (if any) is not alphanumeric — performing no network request and
independently of the network's behaviour. -/
theorem parse_input_returns_first_bv (net net' : String → Option String)
    (s : String) (r : List Char) (h : firstBv s.data = some r) :
    parse_input_to_bvid net s = (String.mk r, []) ∧
    parse_input_to_bvid net s = parse_input_to_bvid net' s ∧
    (∃ pre suf, s.data = pre ++ r ++ suf ∧
      (∃ run, r = 'B' :: 'V' :: run ∧ run ≠ [] ∧ ∀ c ∈ run, isAlnumAscii c = true) ∧
      (∀ c cs, suf = c :: cs → isAlnumAscii c = false) ∧
      (∀ t, t <:+ s.data → r.length + suf.length < t.length → bvAt t = none)) := by
  have hp : ∀ net0 : String → Option String,
      parse_input_to_bvid net0 s = (String.mk r, []) := by
    intro net0
    unfold parse_input_to_bvid
    rw [h]
  exact ⟨hp net, (hp net).trans (hp net').symm, firstBv_spec s.data r h⟩

/-- Witness for C8: end-to-end scenario 1 — the canonical video URL
resolves to its BV id with zero network fetches, for a network oracle that
would fail every request. -/
theorem parse_input_returns_first_bv_witness :
    parse_input_to_bvid (fun _ => none)
        "https://www.bilibili.com/video/BV1xx411c7mD" = ("BV1xx411c7mD", []) :=
  ((parse_input_returns_first_bv (fun _ => none) (fun _ => some "")
      "https://www.bilibili.com/video/BV1xx411c7mD"
      "BV1xx411c7mD".data (by decide)).1).trans (by decide)

/-- C9 counterexample: the input `"b23.tv"` contains a short-link domain
and has no URL scheme, yet the URL the resolver normalizes and then
fetches is `"b23.tv"` itself, which does not begin with `https://` —
`_normalize_url` only prepends a scheme when the string starts with a
domain followed by `/`. -/
theorem normalize_url_https_counterexample :
    shortDomains.any (fun d => pyContains "b23.tv" d) = true ∧
    hasScheme (pyStrip "b23.tv").data = false ∧
    (parse_input_to_bvid (fun _ => none) "b23.tv").2 =
      [normalize_url (pyStrip "b23.tv")] ∧
    pyStartsWith (normalize_url (pyStrip "b23.tv")) "https://" = false := by
  decide

/-- C9 (amended): for every input with no URL scheme whose trimmed form
begins with a recognized short-link domain followed by `/`, every URL the
resolver fetches begins with `https://`. -/
theorem normalize_url_https_amended (net : String → Option String) (s : String)
    (hdom : shortDomains.any
      (fun d => startsList (d ++ "/").data (pyStrip s).data) = true)
    (hns : hasScheme (pyStrip s).data = false) :
    ∀ u ∈ (parse_input_to_bvid net s).2, pyStartsWith u "https://" = true := by
  intro u hu
  cases hbv : firstBv s.data with
  | some r =>
    unfold parse_input_to_bvid at hu
    rw [hbv] at hu
    simp at hu
  | none =>
    obtain ⟨d, hd, hstart⟩ := List.any_eq_true.mp hdom
    have hin : shortDomains.any (fun d => pyContains (pyStrip s) d) = true := by
      rw [List.any_eq_true]
      refine ⟨d, hd, ?_⟩
      unfold pyContains
      apply subList_of_startsList
      apply startsList_of_append_left (q := "/".data)
      rw [← String.data_append]
      exact hstart
    have hfetched : (parse_input_to_bvid net s).2 = [normalize_url (pyStrip s)] := by
      unfold parse_input_to_bvid
      rw [hbv]
      dsimp only
      rw [if_pos hin]
      cases hnet : net (normalize_url (pyStrip s)) with
      | none => rfl
      | some fin =>
        dsimp only
        cases firstBv (if fin = "" then normalize_url (pyStrip s) else fin).data <;>
          rfl
    rw [hfetched] at hu
    simp only [List.mem_singleton] at hu
    subst hu
    have hcase : (d ++ "/") ∈ normalizeDomainSlashes ∧
        ((d ++ "/").data).map Char.toLower = (d ++ "/").data := by
      fin_cases hd <;> exact ⟨by decide, by decide⟩
    have hlowany : normalizeDomainSlashes.any
        (fun d0 => startsList d0.data ((pyStrip s).data.map Char.toLower)) = true := by
      rw [List.any_eq_true]
      refine ⟨d ++ "/", hcase.1, ?_⟩
      obtain ⟨rest, hrest⟩ := (startsList_iff _ _).mp hstart
      rw [startsList_iff]
      exact ⟨rest.map Char.toLower, by rw [hrest, List.map_append, hcase.2]⟩
    have hnorm : normalize_url (pyStrip s) = "https://" ++ pyStrip s := by
      unfold normalize_url
      rw [pyStrip_idem]
      rw [if_neg (by simp [hns]), if_pos hlowany]
    rw [hnorm]
    unfold pyStartsWith
    rw [String.data_append]
    exact startsList_self_append ..

/-- Witness for the amended C9: the trimmed input `" b23.tv/abc "` starts
with a short-link domain plus slash, and the single fetched URL is
`https://b23.tv/abc`. -/
theorem normalize_url_https_amended_witness :
    pyStartsWith "https://b23.tv/abc" "https://" = true :=
  normalize_url_https_amended (fun _ => none) " b23.tv/abc " (by decide) (by decide)
    "https://b23.tv/abc" (by decide)
